import Mathlib

/-!
# Verification of the gameshell command-language engine

Shallow embedding of the core of the `gameshell` repository:

* `src/crates/metac/lib.rs` — the statement tokenizer (`parse`), the multi-line
  interpreter (`interpret_multiple`) and the incremental byte parser
  (`PartialParse::parse_increment`, embedded here as `PParse.parse_increment`
  since `PartialParse` is not a usable Lean name in this development);
* `src/crates/cmdmat/lib.rs` — the command matching tree (`Mapping`) with
  `register`, `lookup` and `partial_lookup` (embedded as `lookup_partial`);
* `src/src/evaluator.rs` — the recursive evaluator with its builtin
  `?` / `autocomplete` commands and its recursion-depth bound.

Strings are embedded as Lean `String` / `List Char`; the byte stream of the
incremental parser as `Nat` byte values.  Rust's `char::is_whitespace` is
embedded as `Char.isWhitespace`; the two agree on the ASCII range, which is the
range all statements in this development live in.
-/

/-! ## metac: tokens and parse errors -/

/-- `metac::Data`: an `Atom` is a run of non-whitespace non-paren characters,
a `Command` is the raw text inside one matched `(...)` pair. -/
inductive Data where
  | Atom : String → Data
  | Command : String → Data
deriving DecidableEq, Repr

/-- `metac::ParseError`.  The `metac` version the `gameshell` evaluator links
against also has a `NothingToParse` variant (matched in
`src/src/evaluator.rs`); the vendored `src/crates/metac` never produces it. -/
inductive ParseError where
  | DanglingLeftParenthesis
  | PrematureRightParenthesis
  | NothingToParse
deriving DecidableEq, Repr

/-- The scanning loop of `metac::parse` (src/crates/metac/lib.rs:259-302).
`acc` is the pending span (`line[start..stop]` in the source), `out` the tokens
pushed so far.  The `Nat` is the `lparen_stack` depth counter.

Note the depth-0 `'('` case: the source resets the span (`start = stop`)
without pushing the pending atom, so a pending atom is silently dropped. -/
def parseGo : List Char → Nat → List Char → List Data → Except ParseError (List Data)
  | [], 0, acc, out =>
      .ok (if acc.isEmpty then out else out ++ [Data.Atom (String.mk acc)])
  | [], _+1, _, _ => .error ParseError.DanglingLeftParenthesis
  | c :: rest, 0, acc, out =>
      if c.isWhitespace then
        parseGo rest 0 [] (if acc.isEmpty then out else out ++ [Data.Atom (String.mk acc)])
      else if c = '(' then
        parseGo rest 1 [] out
      else if c = ')' then
        .error ParseError.PrematureRightParenthesis
      else
        parseGo rest 0 (acc ++ [c]) out
  | c :: rest, d+1, acc, out =>
      if c = '(' then
        parseGo rest (d+2) (acc ++ [c]) out
      else if c = ')' then
        match d with
        | 0 => parseGo rest 0 [] (out ++ [Data.Command (String.mk acc)])
        | d'+1 => parseGo rest (d'+1) (acc ++ [c]) out
      else
        parseGo rest (d+1) (acc ++ [c]) out

/-- `metac::parse`: tokenize one statement line. -/
def parse (line : List Char) : Except ParseError (List Data) :=
  parseGo line 0 [] []

/-! ## metac: incremental byte parser -/

/-- `metac::PartialParseOp`. -/
inductive PParseOp where
  | Ready
  | Unready
  | Discard
deriving DecidableEq, Repr

/-- `metac::PartialParse` state: open paren counter and discard flag. -/
structure PParse where
  lparen_stack : Nat
  has_encountered_rparen : Bool
deriving DecidableEq, Repr

/-- The `Default::default()` state. -/
def PParse.default : PParse := ⟨0, false⟩

/-- `PartialParse::parse_increment` (src/crates/metac/lib.rs:235-253), one byte
at a time.  Byte values: `10 = '\n'`, `40 = '('`, `41 = ')'`. -/
def PParse.parse_increment (p : PParse) (input : Nat) : PParse × PParseOp :=
  if input = 10 ∧ p.lparen_stack = 0 then
    (⟨p.lparen_stack, false⟩, PParseOp.Ready)
  else if input = 40 then
    let p' : PParse := ⟨p.lparen_stack + 1, p.has_encountered_rparen⟩
    (p', if p'.has_encountered_rparen then PParseOp.Discard else PParseOp.Unready)
  else if input = 41 then
    if p.lparen_stack = 0 then
      (⟨p.lparen_stack, true⟩, PParseOp.Discard)
    else
      let p' : PParse := ⟨p.lparen_stack - 1, p.has_encountered_rparen⟩
      (p', if p'.has_encountered_rparen then PParseOp.Discard else PParseOp.Unready)
  else
    (p, if p.has_encountered_rparen then PParseOp.Discard else PParseOp.Unready)

/-! ## Theorems for C1 and C4 -/

/-- C1: the claim says that at paren depth 0 a `'('` first flushes any pending
non-empty atom span, so that `"ab(c)"` tokenizes to `Atom "ab"` followed by
`Command "c"` and no text is lost.  The vendored tokenizer instead drops the
pending span: `"ab(c)"` yields only `Command "c"`, losing `"ab"`, and
`"call(call _)"` (the input of the gameshell test `touching_subcommand`, whose
assertions require the flushing behavior) yields only `Command "call _"`. -/
theorem parse_drops_pending_atom_at_lparen :
    parse "ab(c)".data = .ok [Data.Command "c"] ∧
    parse "call(call _)".data = .ok [Data.Command "call _"] := by
  constructor <;> rfl

/-- C4: discard/resynchronization of the incremental parser.  In any state:
1. with the discard flag set, any byte that is not a newline at paren depth 0
   yields `Discard` and keeps the flag set (in particular a newline at depth
   `> 0` does not end the discard condition);
2. with the flag set, a newline at depth 0 yields `Ready` and clears the flag;
3. an unmatched `')'` at depth 0 with the flag clear sets the flag and yields
   `Discard`;
4. with the flag clear, an ordinary byte (not `'\n'`, `'('`, `')'`) yields
   `Unready` and leaves the state unchanged (parsing has resumed clean). -/
theorem pparse_discard_resync (p : PParse) (b : Nat) :
    (p.has_encountered_rparen = true → ¬(b = 10 ∧ p.lparen_stack = 0) →
      (p.parse_increment b).2 = PParseOp.Discard ∧
      (p.parse_increment b).1.has_encountered_rparen = true) ∧
    (p.has_encountered_rparen = true → b = 10 → p.lparen_stack = 0 →
      p.parse_increment b = (⟨0, false⟩, PParseOp.Ready)) ∧
    (p.has_encountered_rparen = false → b = 41 → p.lparen_stack = 0 →
      p.parse_increment b = (⟨0, true⟩, PParseOp.Discard)) ∧
    (p.has_encountered_rparen = false → b ≠ 10 → b ≠ 40 → b ≠ 41 →
      p.parse_increment b = (p, PParseOp.Unready)) := by
  obtain ⟨st, fl⟩ := p
  refine ⟨?_, ?_, ?_, ?_⟩
  · intro hfl hnb
    simp only at hfl
    subst hfl
    rw [PParse.parse_increment, if_neg hnb]
    by_cases h40 : b = 40
    · simp [h40]
    · by_cases h41 : b = 41
      · by_cases hst : st = 0 <;> simp [h40, h41, hst]
      · simp [h40, h41]
  · intro hfl h10 hst
    simp only at hfl hst
    subst hfl h10 hst
    simp [PParse.parse_increment]
  · intro hfl h41 hst
    simp only at hfl hst
    subst hfl h41 hst
    simp [PParse.parse_increment]
  · intro hfl h10 h40 h41
    simp only at hfl
    subst hfl
    simp [PParse.parse_increment, h10, h40, h41]

/-- Witness for C4 at concrete inputs: the flagged state at depth 0 discards
the byte `'a'` (97), the newline (10) resynchronizes to `Ready`, the byte
`')'` (41) from the clean depth-0 state triggers the discard, and `'x'` (120)
after resynchronization is `Unready`. -/
theorem pparse_discard_resync_witness :
    ((PParse.mk 0 true).parse_increment 97).2 = PParseOp.Discard ∧
    (PParse.mk 0 true).parse_increment 10 = (⟨0, false⟩, PParseOp.Ready) ∧
    (PParse.mk 0 false).parse_increment 41 = (⟨0, true⟩, PParseOp.Discard) ∧
    (PParse.mk 0 false).parse_increment 120 = (⟨0, false⟩, PParseOp.Unready) :=
  ⟨((pparse_discard_resync ⟨0, true⟩ 97).1 rfl (by decide)).1,
   (pparse_discard_resync ⟨0, true⟩ 10).2.1 rfl rfl rfl,
   (pparse_discard_resync ⟨0, false⟩ 41).2.2.1 rfl rfl rfl,
   (pparse_discard_resync ⟨0, false⟩ 120).2.2.2 rfl (by decide) (by decide) (by decide)⟩

/-! ## cmdmat: the command matching tree -/

/-- `cmdmat::Decision`: token consumption verdict of a decider. -/
inductive Decision (D : Type) where
  | Accept : Nat → Decision D
  | Deny : D → Decision D
deriving DecidableEq, Repr

/-- `cmdmat::Decider`: a description string plus the decider function.  The
Rust function takes the remaining tokens and a mutable output buffer of parsed
arguments; here it takes the current buffer and returns the new one. -/
structure Decider (A D : Type) where
  description : String
  decider : List String → List A → Decision D × List A

/-- `cmdmat::RegError`. -/
inductive RegError where
  | DeciderAlreadyExists
  | FinalizerAlreadyExists
deriving DecidableEq, Repr

/-- `cmdmat::LookError`. -/
inductive LookError (D : Type) where
  | DeciderAdvancedTooFar
  | DeciderDenied : String → D → LookError D
  | FinalizerDoesNotExist
  | UnknownMapping : String → LookError D

/-- `cmdmat::Either`. -/
inductive Either (L R : Type) where
  | Left : L → Either L R
  | Right : R → Either L R

/-- `cmdmat::Mapping`: a node of the matching tree.  The Rust `HashMap` of
children is embedded as an association list with unique keys (insertion only
happens on a missing key); iteration order is the insertion order, which is
observationally equivalent to the unspecified `HashMap` order because every
consumer of the iteration sorts its output.  `F` is the finalizer type
(`fn(&mut C, &[A]) -> Result<String, String>` in Rust). -/
inductive Mapping (A D F : Type) : Type where
  | node : List (String × Mapping A D F) → Option (Decider A D) → Option F → Mapping A D F

/-- The children map of a node. -/
def Mapping.map : Mapping A D F → List (String × Mapping A D F)
  | .node m _ _ => m

/-- The decider of a node (`Mapping::decider`). -/
def Mapping.decider : Mapping A D F → Option (Decider A D)
  | .node _ d _ => d

/-- The finalizer of a node (`Mapping::finalizer`). -/
def Mapping.finalizer : Mapping A D F → Option F
  | .node _ _ f => f

/-- `Mapping::default()`: empty children, no decider, no finalizer. -/
def Mapping.empty : Mapping A D F := .node [] none none

/-- `HashMap::get` on the association list of children. -/
def assocGet : List (String × β) → String → Option β
  | [], _ => none
  | (k, v) :: rest, key => if k = key then some v else assocGet rest key

/-- Write back through `HashMap::get_mut`: replace the value at an existing
key, leaving everything else in place. -/
def assocSet : List (String × β) → String → β → List (String × β)
  | [], key, v => [(key, v)]
  | (k, w) :: rest, key, v =>
      if k = key then (key, v) :: rest else (k, w) :: assocSet rest key v

/-- `Mapping::register` (src/crates/cmdmat/lib.rs:355-380), with the `&mut`
mutation made explicit: the result is the tree as left by the call (Rust
mutates `self` in place and propagates errors with `?`), paired with the
returned error, if any.  A new child is built detached and inserted only when
the recursive registration into it succeeds, exactly as in the source. -/
def registerM : Mapping A D F → List (String × Option (Decider A D)) → F →
    Mapping A D F × Option RegError
  | m, [], fin =>
      if m.finalizer.isSome then (m, some RegError.FinalizerAlreadyExists)
      else (Mapping.node m.map m.decider (some fin), none)
  | m, (key, dec) :: rest, fin =>
      match assocGet m.map key with
      | some entry =>
          if dec.isSome then (m, some RegError.DeciderAlreadyExists)
          else
            match registerM entry rest fin with
            | (entry', err) =>
                (Mapping.node (assocSet m.map key entry') m.decider m.finalizer, err)
      | none =>
          match registerM (Mapping.node [] dec none) rest fin with
          | (child, none) =>
              (Mapping.node (m.map ++ [(key, child)]) m.decider m.finalizer, none)
          | (_, some err) => (m, some err)

/-- `Mapping::lookup_internal` (src/crates/cmdmat/lib.rs:392-429): resolve the
input tokens, running deciders to collect arguments into `output`; returns the
finalizer, the total decider advance, and the final argument buffer. -/
def lookupInternal : Mapping A D F → List String → List A →
    Except (LookError D) (F × Nat × List A)
  | m, [], output =>
      match m.finalizer with
      | some fin => .ok (fin, 0, output)
      | none => .error LookError.FinalizerDoesNotExist
  | m, tok :: rest, output =>
      match assocGet m.map tok with
      | some handler =>
          match
            (show Except (LookError D) (Nat × List A) from
              match handler.decider with
              | some dec =>
                  match dec.decider rest output with
                  | (Decision.Accept n, out') => .ok (n, out')
                  | (Decision.Deny res, _) =>
                      .error (LookError.DeciderDenied dec.description res)
              | none => .ok (0, output))
          with
          | .error e => .error e
          | .ok (advance, out') =>
              if (tok :: rest).length > advance then
                match lookupInternal handler ((tok :: rest).drop (1 + advance)) out' with
                | .ok (fin, adv2, out2) => .ok (fin, adv2 + advance, out2)
                | .error e => .error e
              else
                .error LookError.DeciderAdvancedTooFar
      | none => .error (LookError.UnknownMapping tok)
termination_by _ input _ => input.length
decreasing_by all_goals (simp [List.length_drop]; try omega)

/-- `Mapping::lookup`: run `lookup_internal` on a fresh argument buffer and
return the finalizer with the collected arguments. -/
def Mapping.lookup (m : Mapping A D F) (input : List String) :
    Except (LookError D) (F × List A) :=
  match lookupInternal m input [] with
  | .ok (fin, _, output) => .ok (fin, output)
  | .error e => .error e

/-- `Mapping::partial_lookup_internal` (src/crates/cmdmat/lib.rs:454-484),
embedded as `lookupPartialInternal`: tolerant traversal for autocomplete.
When input is exhausted it returns the node itself; when exactly one token
remains and the matched child has a decider it returns the decider's
description without calling the decider function. -/
def lookupPartialInternal : Mapping A D F → List String → List A →
    Except (LookError D) (Either (Mapping A D F) String)
  | m, [], _ => .ok (Either.Left m)
  | m, tok :: rest, output =>
      match assocGet m.map tok with
      | some handler =>
          match handler.decider with
          | some dec =>
              if (tok :: rest).length = 1 then
                .ok (Either.Right dec.description)
              else
                match dec.decider rest output with
                | (Decision.Accept n, out') =>
                    if (tok :: rest).length > n then
                      lookupPartialInternal handler ((tok :: rest).drop (1 + n)) out'
                    else
                      .error LookError.DeciderAdvancedTooFar
                | (Decision.Deny res, _) =>
                    .error (LookError.DeciderDenied dec.description res)
          | none =>
              if (tok :: rest).length > 0 then
                lookupPartialInternal handler ((tok :: rest).drop 1) output
              else
                .error LookError.DeciderAdvancedTooFar
      | none => .error (LookError.UnknownMapping tok)
termination_by _ input _ => input.length
decreasing_by all_goals (simp [List.length_drop]; try omega)

/-- `Mapping::partial_lookup`, embedded as `Mapping.lookup_partial`. -/
def Mapping.lookup_partial (m : Mapping A D F) (input : List String) :
    Except (LookError D) (Either (Mapping A D F) String) :=
  lookupPartialInternal m input []

/-! ## Concrete test fixtures for the matching tree -/

/-- A decider that consumes nothing and appends nothing (like the `DECIDE` of
the cmdmat test `partial_lookup`, description aside). -/
def decNopU : Decider Unit Unit := ⟨"d", fun _ out => (Decision.Accept 0, out)⟩

/-- A decider claiming to consume two tokens while appending nothing
(the cmdmat test `decider_of_two_short_output` / `decider_of_two_overrun`). -/
def decTwo : Decider Unit Unit := ⟨"two", fun _ out => (Decision.Accept 2, out)⟩

/-- Tree with one node `"a"` holding a decider and a finalizer (id `1`). -/
def mC2 : Mapping Unit Unit Nat :=
  .node [("a", .node [] (some decNopU) (some 1))] none none

/-- Tree with one node `"add-one"` holding the over-consuming decider. -/
def mC6 : Mapping Unit Unit Nat :=
  .node [("add-one", .node [] (some decTwo) (some 1))] none none

/-! ## Theorems for C2, C6, C7, C9 -/

/-- C2 counterexample: the claim says a registration step that reaches an
existing node must be rejected with `DeciderAlreadyExists` when it supplies no
validator although the node has one.  In `mC2` the node `"a"` exists and holds
a validator, yet registering the path `a b` with no validators succeeds
(no error at all) — the existing validator is simply kept.  (This matches the
source's own test `sequences_decider_fails`, where such a registration
proceeds past the decider check.) -/
theorem register_none_over_existing_decider_accepted :
    (∃ e, assocGet mC2.map "a" = some e ∧ e.decider.isSome = true) ∧
    (registerM mC2 [("a", none), ("b", none)] 2).2 = none :=
  ⟨⟨Mapping.node [] (some decNopU) (some 1), rfl, rfl⟩, rfl⟩

/-- C2 (amended): at a registration step whose next literal already has a node,
supplying *any* validator is rejected with `DeciderAlreadyExists` and the tree
is returned unchanged; supplying *no* validator is never rejected at this step
— the registration recurses into the existing node keeping its validator,
whatever that validator state is. -/
theorem register_existing_node_decider_policy
    (m entry : Mapping A D F) (key : String)
    (rest : List (String × Option (Decider A D))) (fin : F)
    (h : assocGet m.map key = some entry) :
    (∀ dec : Decider A D,
      registerM m ((key, some dec) :: rest) fin = (m, some RegError.DeciderAlreadyExists)) ∧
    registerM m ((key, none) :: rest) fin =
      (Mapping.node (assocSet m.map key (registerM entry rest fin).1) m.decider m.finalizer,
       (registerM entry rest fin).2) := by
  constructor
  · intro dec
    simp [registerM, h]
  · cases hrec : registerM entry rest fin with
    | mk entry' err => simp [registerM, h, hrec]

/-- Witness for C2's amended theorem on `mC2`: re-registering `"a"` with a
validator is rejected and leaves the tree untouched, while registering `"a"`
with no validator is not rejected at that step. -/
theorem register_existing_node_decider_policy_witness :
    registerM mC2 [("a", some decNopU)] 3 = (mC2, some RegError.DeciderAlreadyExists) ∧
    (registerM mC2 [("a", none)] 3).2 =
      (registerM (Mapping.node [] (some decNopU) (some 1)) ([] : List (String × Option (Decider Unit Unit))) 3).2 := by
  refine ⟨(register_existing_node_decider_policy mC2 _ "a" [] 3 rfl).1 decNopU, ?_⟩
  rw [(register_existing_node_decider_policy mC2 (Mapping.node [] (some decNopU) (some 1)) "a" [] 3 rfl).2]

/-- Replacing an existing key's value with the value it already holds leaves
the association list unchanged. -/
theorem assocSet_get_self {β : Type} :
    ∀ (l : List (String × β)) (k : String) (v : β),
      assocGet l k = some v → assocSet l k v = l := by
  intro l
  induction l with
  | nil => intro k v h; simp [assocGet] at h
  | cons hd tl ih =>
      obtain ⟨k', w⟩ := hd
      intro k v h
      by_cases hk : k' = k
      · subst hk
        simp [assocGet] at h
        simp [assocSet, h]
      · simp [assocGet, hk] at h
        simp [assocSet, hk, ih k v h]

/-- C9: a failed registration (any returned `RegError`) leaves the matching
tree exactly as it was: the mutated-in-place tree returned by `registerM` is
the input tree whenever an error is reported. -/
theorem register_error_leaves_mapping_unchanged
    (path : List (String × Option (Decider A D))) :
    ∀ (m : Mapping A D F) (fin : F) (err : RegError),
      (registerM m path fin).2 = some err → (registerM m path fin).1 = m := by
  induction path with
  | nil =>
      intro m fin err h
      by_cases hf : m.finalizer.isSome
      · simp [registerM, hf]
      · simp [registerM, hf] at h
  | cons hd tl ih =>
      obtain ⟨key, dec⟩ := hd
      intro m fin err h
      cases hget : assocGet m.map key with
      | some entry =>
          by_cases hd : dec.isSome
          · simp [registerM, hget, hd]
          · cases hrec : registerM entry tl fin with
            | mk entry' err' =>
                simp [registerM, hget, hd, hrec] at h ⊢
                have hentry : entry' = entry := by
                  have := ih entry fin err
                  rw [hrec] at this
                  exact this h
                rw [hentry]
                rw [assocSet_get_self m.map key entry hget]
                cases m
                rfl
      | none =>
          cases hrec : registerM (Mapping.node [] dec none) tl fin with
          | mk child err' =>
              cases err' with
              | none => simp [registerM, hget, hrec] at h
              | some e => simp [registerM, hget, hrec]

/-- Witness for C9: the failing re-registration of `"a"` with a decider (which
errors with `DeciderAlreadyExists`) leaves `mC2` unchanged. -/
theorem register_error_leaves_mapping_unchanged_witness :
    (registerM mC2 [("a", some decNopU)] 3).2 = some RegError.DeciderAlreadyExists ∧
    (registerM mC2 [("a", some decNopU)] 3).1 = mC2 :=
  ⟨rfl, register_error_leaves_mapping_unchanged [("a", some decNopU)] mC2 3
    RegError.DeciderAlreadyExists rfl⟩

/-- C6: at a lookup step where the matched node's decider returns `Accept k`,
the step fails with `DeciderAdvancedTooFar` precisely when `k` exceeds the
tokens remaining after the literal; otherwise traversal continues in the child
with the cursor advanced by `1 + k` (the reported advance adds this step's
`k`). -/
theorem lookup_decider_advance_policy
    (m handler : Mapping A D F) (tok : String) (rest : List String)
    (output out' : List A) (dec : Decider A D) (k : Nat)
    (hget : assocGet m.map tok = some handler)
    (hdec : handler.decider = some dec)
    (hacc : dec.decider rest output = (Decision.Accept k, out')) :
    (rest.length < k →
      lookupInternal m (tok :: rest) output = .error LookError.DeciderAdvancedTooFar) ∧
    (k ≤ rest.length →
      lookupInternal m (tok :: rest) output =
        match lookupInternal handler (rest.drop k) out' with
        | .ok (fin, adv2, out2) => .ok (fin, adv2 + k, out2)
        | .error e => .error e) := by
  constructor
  · intro hk
    rw [lookupInternal]
    simp [hget, hdec, hacc]
    omega
  · intro hk
    rw [lookupInternal]
    simp only [hget, hdec, hacc]
    rw [if_pos (by simp; omega)]
    rw [show 1 + k = k + 1 from Nat.add_comm 1 k]
    rw [List.drop_succ_cons]

/-- Witness for C6 on `mC6` (`decider_of_two_overrun` and
`decider_of_two_short_output` from the cmdmat tests): with one remaining token
the `Accept 2` decider overruns and lookup fails; with two remaining tokens it
continues to the child's finalizer with advance `2`. -/
theorem lookup_decider_advance_policy_witness :
    lookupInternal mC6 ["add-one", "123"] ([] : List Unit) =
      .error LookError.DeciderAdvancedTooFar ∧
    lookupInternal mC6 ["add-one", "123", "456"] ([] : List Unit) = .ok (1, 2, []) := by
  constructor
  · exact (lookup_decider_advance_policy mC6 (Mapping.node [] (some decTwo) (some 1))
      "add-one" ["123"] [] [] decTwo 2 rfl rfl rfl).1 (by decide)
  · rw [(lookup_decider_advance_policy mC6 (Mapping.node [] (some decTwo) (some 1))
      "add-one" ["123", "456"] [] [] decTwo 2 rfl rfl rfl).2 (by decide)]
    rw [show List.drop 2 ["123", "456"] = ([] : List String) from rfl]
    rw [lookupInternal.eq_def]
    simp [Mapping.finalizer]

/-- C7: partial lookup returns the reached node itself when input is exhausted
there, and when exactly one token remains and the matched child carries a
decider it returns that decider's description without running the decider
function (the equation holds for every decider function behind the same
description, and the argument buffer plays no part). -/
theorem lookup_partial_exhausted_and_decider_desc
    (m handler : Mapping A D F) (tok : String) (output : List A) (dec : Decider A D)
    (hget : assocGet m.map tok = some handler)
    (hdec : handler.decider = some dec) :
    (∀ output' : List A, lookupPartialInternal m [] output' = .ok (Either.Left m)) ∧
    lookupPartialInternal m [tok] output = .ok (Either.Right dec.description) := by
  constructor
  · intro o
    rw [lookupPartialInternal]
  · rw [lookupPartialInternal]
    simp [hget, hdec]

/-- Witness for C7 on `mC6`: exhausted input returns the root node, and the
single token `"add-one"` returns the decider description `"two"` even though
the decider itself would claim two tokens. -/
theorem lookup_partial_exhausted_and_decider_desc_witness :
    lookupPartialInternal mC6 [] ([] : List Unit) = .ok (Either.Left mC6) ∧
    lookupPartialInternal mC6 ["add-one"] ([] : List Unit) = .ok (Either.Right "two") :=
  ⟨(lookup_partial_exhausted_and_decider_desc mC6 (Mapping.node [] (some decTwo) (some 1))
      "add-one" [] decTwo rfl rfl).1 [],
   (lookup_partial_exhausted_and_decider_desc mC6 (Mapping.node [] (some decTwo) (some 1))
      "add-one" [] decTwo rfl rfl).2⟩

/-! ## metac: the `Evaluate` trait and multi-line interpretation

The trait `Evaluate<T>` is embedded generically: an evaluator is a state type
`σ` with a step `eval : σ → List Data → σ × T` (Rust's `&mut self` made
explicit) and the `T::default()` value is passed as `dflt`. -/

/-- `Evaluate::interpret_single`: parse one whole statement and evaluate it.
Embedded as `interpretSingleG` (generic in the evaluator). -/
def interpretSingleG {σ T : Type} (eval : σ → List Data → σ × T) (s : σ)
    (stmt : List Char) : σ × Except ParseError T :=
  match parse stmt with
  | .error e => (s, .error e)
  | .ok data =>
      match eval s data with
      | (s', t) => (s', .ok t)

/-- The scanning loop of `Evaluate::interpret_multiple`
(src/crates/metac/lib.rs:170-197).  `lparen` is `lparen_stack`, `seen` is
`seen_non_ws`, `cur` is the current segment `code[old_idx..idx]`, `result` the
running result.  Note that `'('` and `')'` do not set `seen_non_ws` in the
source: only the final branch (a character that is none of `'\n'`-at-emission,
`'('`, `')'`) checks `is_whitespace`. -/
def interpretMultipleGo {σ T : Type} (eval : σ → List Data → σ × T) :
    σ → List Char → Nat → Bool → List Char → T → σ × Except ParseError T
  | s, [], _, seen, cur, result =>
      if cur ≠ [] ∧ seen = true then
        interpretSingleG eval s cur
      else (s, .ok result)
  | s, c :: rest, lparen, seen, cur, result =>
      if c = '\n' ∧ lparen = 0 ∧ seen = true then
        match interpretSingleG eval s cur with
        | (s', .ok t) => interpretMultipleGo eval s' rest 0 false [] t
        | (s', .error e) => (s', .error e)
      else if c = '(' then
        interpretMultipleGo eval s rest (lparen + 1) seen (cur ++ [c]) result
      else if c = ')' then
        if lparen = 0 then (s, .error ParseError.PrematureRightParenthesis)
        else interpretMultipleGo eval s rest (lparen - 1) seen (cur ++ [c]) result
      else if ¬ c.isWhitespace then
        interpretMultipleGo eval s rest lparen true (cur ++ [c]) result
      else
        interpretMultipleGo eval s rest lparen seen (cur ++ [c]) result

/-- `Evaluate::interpret_multiple`: `dflt` is `T::default()`. -/
def interpretMultiple {σ T : Type} (eval : σ → List Data → σ × T) (dflt : T)
    (s : σ) (code : List Char) : σ × Except ParseError T :=
  interpretMultipleGo eval s code 0 false [] dflt

/-- Specification-side segmentation (refinement target for the multi-line
contract of spec §4.2, with the `seen` condition amended to what the source
actually tracks): scan with an open-paren count; a newline emits the current
segment only at count `0` after a character that is neither whitespace nor a
parenthesis has been seen; an unmatched `')'` at count `0` aborts (second
component `true`); a trailing segment is emitted only when such a character
was seen.  Pure: independent of any evaluator. -/
def multiSegments : List Char → Nat → Bool → List Char → List (List Char) × Bool
  | [], _, seen, cur => (if cur ≠ [] ∧ seen = true then [cur] else [], false)
  | c :: rest, lparen, seen, cur =>
      if c = '\n' ∧ lparen = 0 ∧ seen = true then
        match multiSegments rest 0 false [] with
        | (segs, err) => (cur :: segs, err)
      else if c = '(' then
        multiSegments rest (lparen + 1) seen (cur ++ [c])
      else if c = ')' then
        if lparen = 0 then ([], true)
        else multiSegments rest (lparen - 1) seen (cur ++ [c])
      else if ¬ c.isWhitespace then
        multiSegments rest lparen true (cur ++ [c])
      else
        multiSegments rest lparen seen (cur ++ [c])

/-- Evaluate a segment list in order: each segment through
`interpret_single`, a parse error aborting immediately; after all segments an
abort flag reports the pending `PrematureRightParenthesis`; the result is the
last segment's value (or the running value if no segment remains). -/
def runSegs {σ T : Type} (eval : σ → List Data → σ × T) :
    σ → List (List Char) × Bool → T → σ × Except ParseError T
  | s, ([], false), result => (s, .ok result)
  | s, ([], true), _ => (s, .error ParseError.PrematureRightParenthesis)
  | s, (seg :: segs, err), _result =>
      match interpretSingleG eval s seg with
      | (s', .ok t) => runSegs eval s' (segs, err) t
      | (s', .error e) => (s', .error e)

/-! ## Theorems for C8 -/

/-- A character that is neither whitespace nor a parenthesis: exactly the
characters that set `seen_non_ws` in `interpret_multiple`. -/
def goodChar (c : Char) : Prop := ¬ c.isWhitespace = true ∧ c ≠ '(' ∧ c ≠ ')'

/-- The multi-line loop factors through the pure segmentation: evaluation
plays no part in where statements are cut. -/
theorem interpretMultipleGo_eq_runSegs {σ T : Type} (eval : σ → List Data → σ × T) :
    ∀ (code : List Char) (s : σ) (lparen : Nat) (seen : Bool) (cur : List Char) (result : T),
      interpretMultipleGo eval s code lparen seen cur result =
        runSegs eval s (multiSegments code lparen seen cur) result := by
  intro code
  induction code with
  | nil =>
      intro s lparen seen cur result
      simp only [interpretMultipleGo, multiSegments]
      by_cases h : cur ≠ [] ∧ seen = true
      · rw [if_pos h, if_pos h]
        cases hres : interpretSingleG eval s cur with
        | mk s' r =>
            cases r with
            | ok t => simp only [runSegs, hres]
            | error e => simp only [runSegs, hres]
      · rw [if_neg h, if_neg h]
        simp only [runSegs]
  | cons c rest ih =>
      intro s lparen seen cur result
      simp only [interpretMultipleGo, multiSegments]
      by_cases h1 : c = '\n' ∧ lparen = 0 ∧ seen = true
      · rw [if_pos h1, if_pos h1]
        cases hseg : multiSegments rest 0 false [] with
        | mk segs err =>
            cases hres : interpretSingleG eval s cur with
            | mk s' r =>
                cases r with
                | ok t => simp only [runSegs, hres, ih, hseg]
                | error e => simp only [runSegs, hres]
      · rw [if_neg h1, if_neg h1]
        by_cases h2 : c = '('
        · rw [if_pos h2, if_pos h2]; exact ih s _ seen _ result
        · rw [if_neg h2, if_neg h2]
          by_cases h3 : c = ')'
          · rw [if_pos h3, if_pos h3]
            by_cases h4 : lparen = 0
            · rw [if_pos h4, if_pos h4]; simp only [runSegs]
            · rw [if_neg h4, if_neg h4]; exact ih s _ seen _ result
          · rw [if_neg h3, if_neg h3]
            by_cases h5 : ¬ c.isWhitespace = true
            · rw [if_pos h5, if_pos h5]; exact ih s _ true _ result
            · rw [if_neg h5, if_neg h5]; exact ih s _ seen _ result

/-- Every segment emitted by the segmentation contains a character that is
neither whitespace nor a parenthesis (in particular it is not pure
whitespace). -/
theorem multiSegments_goodChar :
    ∀ (code : List Char) (lparen : Nat) (seen : Bool) (cur : List Char),
      (seen = true → ∃ c ∈ cur, goodChar c) →
      ∀ seg ∈ (multiSegments code lparen seen cur).1, ∃ c ∈ seg, goodChar c := by
  intro code
  induction code with
  | nil =>
      intro lparen seen cur hinv seg hseg
      simp only [multiSegments] at hseg
      by_cases h : cur ≠ [] ∧ seen = true
      · rw [if_pos h] at hseg
        simp at hseg
        subst hseg
        exact hinv h.2
      · rw [if_neg h] at hseg
        simp at hseg
  | cons c rest ih =>
      intro lparen seen cur hinv seg hseg
      simp only [multiSegments] at hseg
      by_cases h1 : c = '\n' ∧ lparen = 0 ∧ seen = true
      · rw [if_pos h1] at hseg
        cases hrec : multiSegments rest 0 false [] with
        | mk segs err =>
            rw [hrec] at hseg
            simp at hseg
            rcases hseg with he | hm
            · subst he; exact hinv h1.2.2
            · have := ih 0 false [] (by intro hq; exact absurd hq (by simp)) seg
              rw [hrec] at this
              exact this hm
      · rw [if_neg h1] at hseg
        by_cases h2 : c = '('
        · rw [if_pos h2] at hseg
          refine ih _ seen (cur ++ [c]) ?_ seg hseg
          intro hs; obtain ⟨x, hx, hg⟩ := hinv hs
          exact ⟨x, by simp [hx], hg⟩
        · rw [if_neg h2] at hseg
          by_cases h3 : c = ')'
          · rw [if_pos h3] at hseg
            by_cases h4 : lparen = 0
            · rw [if_pos h4] at hseg; simp at hseg
            · rw [if_neg h4] at hseg
              refine ih _ seen (cur ++ [c]) ?_ seg hseg
              intro hs; obtain ⟨x, hx, hg⟩ := hinv hs
              exact ⟨x, by simp [hx], hg⟩
          · rw [if_neg h3] at hseg
            by_cases h5 : ¬ c.isWhitespace = true
            · rw [if_pos h5] at hseg
              refine ih _ true (cur ++ [c]) ?_ seg hseg
              intro _
              exact ⟨c, by simp, h5, h2, h3⟩
            · rw [if_neg h5] at hseg
              refine ih _ seen (cur ++ [c]) ?_ seg hseg
              intro hs; obtain ⟨x, hx, hg⟩ := hinv hs
              exact ⟨x, by simp [hx], hg⟩

/-- A trailing line without newline or parens, containing at least one
non-whitespace character, is emitted whole as one segment. -/
theorem multiSegments_plain :
    ∀ (code : List Char) (seen : Bool) (cur : List Char),
      (∀ c ∈ code, c ≠ '\n' ∧ c ≠ '(' ∧ c ≠ ')') →
      ((∃ c ∈ code, ¬ c.isWhitespace = true) ∨ (seen = true ∧ cur ≠ [])) →
      multiSegments code 0 seen cur = ([cur ++ code], false) := by
  intro code
  induction code with
  | nil =>
      intro seen cur hplain hx
      rcases hx with ⟨c, hc, _⟩ | ⟨hs, hc⟩
      · simp at hc
      · simp only [multiSegments]
        rw [if_pos ⟨hc, hs⟩]
        simp
  | cons c rest ih =>
      intro seen cur hplain hx
      have hc := hplain c (by simp)
      simp only [multiSegments]
      rw [if_neg (by intro hcon; exact hc.1 hcon.1)]
      rw [if_neg hc.2.1, if_neg hc.2.2]
      by_cases hw : c.isWhitespace = true
      · rw [if_neg (by simp [hw])]
        have hx' : (∃ x ∈ rest, ¬ x.isWhitespace = true) ∨ (seen = true ∧ cur ++ [c] ≠ []) := by
          rcases hx with ⟨x, hxm, hxw⟩ | ⟨hs, _⟩
          · rcases List.mem_cons.mp hxm with he | hm
            · exact absurd hxw (by rw [he]; simp [hw])
            · exact Or.inl ⟨x, hm, hxw⟩
          · exact Or.inr ⟨hs, by simp⟩
        rw [ih seen (cur ++ [c]) (fun x hx2 => hplain x (by simp [hx2])) hx']
        simp
      · rw [if_pos (by simp [hw])]
        rw [ih true (cur ++ [c]) (fun x hx2 => hplain x (by simp [hx2])) (Or.inr ⟨rfl, by simp⟩)]
        simp

/-- C8 counterexample: the claim says a final trailing segment with
non-whitespace content is still evaluated.  Feeding `"()"` (trailing segment
with the non-whitespace content `()`) to `interpret_multiple` with a counting
evaluator evaluates nothing: the counter stays `0` and the default value is
returned, because `'('`/`')'` never set `seen_non_ws` in the source. -/
theorem interpret_multiple_trailing_parens_not_evaluated :
    interpretMultiple (fun (n : Nat) (_ : List Data) => (n + 1, n + 1)) 0 0 "()".data
      = (0, Except.ok 0) ∧
    "()".data ≠ [] ∧ (∃ c ∈ "()".data, ¬ c.isWhitespace = true) :=
  ⟨rfl, by decide, ⟨'(', by decide, by decide⟩⟩

/-- C8 (amended): multi-line interpretation factors through a pure
segmentation of the text: (1) `interpret_multiple` equals evaluating, in
order, exactly the segments of `multiSegments` (so the returned value is the
last emitted statement's result, with a pending unmatched `')'` reported
after the statements before it were evaluated); (2) every emitted segment —
so in particular every newline-terminated one — contains a character that is
neither whitespace nor a parenthesis (whitespace-only segments are never
evaluated, and a newline emits only when the open-paren count is `0` and such
a character was seen); (3) a trailing segment free of newlines and parens
containing a non-whitespace character is emitted even without a terminating
newline. -/
theorem interpret_multiple_decomposition {σ T : Type}
    (eval : σ → List Data → σ × T) (dflt : T) (s : σ) (code : List Char) :
    (interpretMultiple eval dflt s code = runSegs eval s (multiSegments code 0 false []) dflt) ∧
    (∀ seg ∈ (multiSegments code 0 false []).1,
      ∃ c ∈ seg, ¬ c.isWhitespace = true ∧ c ≠ '(' ∧ c ≠ ')') ∧
    ((∀ c ∈ code, c ≠ '\n' ∧ c ≠ '(' ∧ c ≠ ')') → (∃ c ∈ code, ¬ c.isWhitespace = true) →
      multiSegments code 0 false [] = ([code], false)) :=
  ⟨interpretMultipleGo_eq_runSegs eval code s 0 false [] dflt,
   fun seg hseg => by
     simpa [goodChar] using multiSegments_goodChar code 0 false [] (by simp) seg hseg,
   fun h1 h2 => by simpa using multiSegments_plain code false [] h1 (Or.inl h2)⟩

/-- Witness for C8's amended theorem: on `"a\nb"` with a counting evaluator
the loop equals running the segmentation's segments, and the plain trailing
line `"ab"` is one whole segment. -/
theorem interpret_multiple_decomposition_witness :
    interpretMultiple (fun (n : Nat) (_ : List Data) => (n + 1, n + 1)) 0 0 "a\nb".data =
      runSegs (fun (n : Nat) (_ : List Data) => (n + 1, n + 1)) 0
        (multiSegments "a\nb".data 0 false []) 0 ∧
    multiSegments "ab".data 0 false [] = (["ab".data], false) :=
  ⟨(interpret_multiple_decomposition (fun (n : Nat) (_ : List Data) => (n + 1, n + 1))
      0 0 "a\nb".data).1,
   (interpret_multiple_decomposition (fun (n : Nat) (_ : List Data) => (n + 1, n + 1))
      0 0 "ab".data).2.2 (by decide) ⟨'a', by decide, by decide⟩⟩

/-! ## gameshell: the evaluator (src/src/evaluator.rs)

The evaluator is embedded generically in the argument type `A` (Rust fixes it
to the `Type` enum of src/src/types.rs, which the evaluator itself never
inspects) and the context type `C`.  `Feedback = Result<String, String>`
(src/src/lib.rs:140).  The external `regex` crate used by the `?` builtin is
abstracted as a parameter `rx regex list`, standing for the whole
`Regex::new(".*" + regex + ".*")` / `captures_iter` block: `.ok` is the
filtered list, `.error` the complete "Regex could not be compiled: ..."
message. -/

/-- `gameshell::Feedback` (`Result<String, String>`). -/
inductive Feedback where
  | Ok : String → Feedback
  | Err : String → Feedback
deriving DecidableEq, Repr

/-- `cmdmat::Finalizer<A, C>`: `fn(&mut C, &[A]) -> Result<String, String>`,
with the `&mut` made explicit. -/
abbrev Finalizer (A C : Type) : Type := C → List A → C × Except String String

/-- The `Evaluator` state: matching tree, context, depth counter, bound. -/
structure Evaluator (A C : Type) where
  mapping : Mapping A String (Finalizer A C)
  context : C
  current_depth : Nat
  max_depth : Nat

/-- `lookerr_to_evalres` (src/src/evaluator.rs:229-240). -/
def lookerrToEvalres : LookError String → Feedback
  | LookError.DeciderAdvancedTooFar => Feedback.Err "Decider advanced too far"
  | LookError.DeciderDenied desc dec => Feedback.Err ("Expected " ++ desc ++ ". Decider: " ++ dec)
  | LookError.FinalizerDoesNotExist => Feedback.Err "Finalizer does not exist"
  | LookError.UnknownMapping token => Feedback.Err ("Unrecognized mapping: " ++ token)

/-- Stable insertion into a `≤`-sorted list of strings. -/
def sortInsert (x : String) : List String → List String
  | [] => [x]
  | y :: ys => if x ≤ y then x :: y :: ys else y :: sortInsert x ys

/-- `Vec::sort` for strings (stable, ascending). -/
def sortStr : List String → List String
  | [] => []
  | x :: xs => sortInsert x (sortStr xs)

mutual
/-- `mapping_to_list` (src/src/evaluator.rs:105-126): render every path of
the tree as a line, used by the `?` builtin. -/
def mappingToList {A D F : Type} : Mapping A D F → List String
  | .node mp _ _ => mappingToListGo mp

/-- The iteration of `mapping_to_list` over a node's children. -/
def mappingToListGo {A D F : Type} : List (String × Mapping A D F) → List String
  | [] => []
  | (key, entry) :: rest =>
      let pspacer : String × String :=
        match entry.decider with
        | some dec => (dec.description, " ")
        | none => (" ", "")
      (if entry.finalizer.isSome then
        [key ++ (if entry.decider.isSome then " " else "") ++ pspacer.1]
      else []) ++
      (mappingToList entry).map
        (fun command => key ++ pspacer.2 ++ pspacer.1 ++ pspacer.2 ++ command) ++
      mappingToListGo rest
end

/-- `handle_any_builtin_commands` (src/src/evaluator.rs:104-194).  Reads only
the mapping; `rx` abstracts the regex block of the `?` branch. -/
def handleAnyBuiltinCommands {A C : Type}
    (rx : String → List String → Except String (List String))
    (m : Mapping A String (Finalizer A C)) (content : List String) : Option Feedback :=
  match content with
  | [] => none
  | front :: restc =>
      if front = "autocomplete" then
        some (match m.lookup_partial restc with
          | .ok (Either.Left mp) =>
              let col := mp.map.map (fun e =>
                e.1 ++ (if e.2.decider.isSome then " " else "") ++
                (match e.2.decider with
                 | some d => d.description
                 | none => "") ++
                (if e.2.finalizer.isSome then " (final)" else ""))
              if col.isEmpty then Feedback.Ok "No more handlers"
              else Feedback.Ok (String.intercalate ", " (sortStr col))
          | .ok (Either.Right name) => Feedback.Ok name
          | .error err => lookerrToEvalres err)
      else if front = "?" then
        let list := mappingToList m
        match restc with
        | [] => some (Feedback.Ok (String.intercalate "\n" (sortStr list)))
        | regex :: _ =>
            if 3 ≤ (front :: restc).length then
              some (Feedback.Err "Too many arguments to: ?")
            else
              match rx regex list with
              | .ok list2 => some (Feedback.Ok (String.intercalate "\n" (sortStr list2)))
              | .error msg => some (Feedback.Err msg)
      else none

/-- Push one parsed argument string in front of a `parse_subcommands` result
(the `content.push(...)` of the loop, with errors propagated unchanged). -/
def consResult {A C : Type} (s : String) :
    Evaluator A C × Except String (List String) → Evaluator A C × Except String (List String)
  | (ev, Except.ok content) => (ev, Except.ok (s :: content))
  | (ev, Except.error e) => (ev, Except.error e)

/-- The `match res` arms of `parse_subcommands` on the result of a nested
`interpret_single` (src/src/evaluator.rs:80-96): a successful feedback string
continues, everything else becomes the statement's error string. -/
def cmdOutcome : Except ParseError Feedback → Except String String
  | Except.ok (Feedback.Ok str) => Except.ok str
  | Except.ok (Feedback.Err r) => Except.error r
  | Except.error ParseError.DanglingLeftParenthesis =>
      Except.error "Dangling left parenthesis"
  | Except.error ParseError.PrematureRightParenthesis =>
      Except.error "Right parenthesis encountered with no matching left parenthesis"
  | Except.error ParseError.NothingToParse => Except.error "No input to parse"

mutual
/-- `parse_subcommands` (src/src/evaluator.rs:63-102): flatten a statement's
tokens to argument strings, recursively evaluating `Command` tokens (unless
they begin with the `'#'` literal-escape marker), under the depth bound.
`fuel` only bounds the nesting actually traversed; the top-level wrappers
supply `max_depth + 1 - current_depth`, which the depth guard keeps from ever
reaching `0` (the `"out of fuel"` branch) when `current_depth ≤ max_depth`. -/
def parseSubF {A C : Type} (rx : String → List String → Except String (List String))
    (fuel : Nat) (ev : Evaluator A C) :
    List Data → Evaluator A C × Except String (List String)
  | [] => (ev, Except.ok [])
  | Data.Atom s :: cs => consResult s (parseSubF rx fuel ev cs)
  | Data.Command s :: cs =>
      if s.data.head? = some '#' then
        consResult (String.mk s.data.tail) (parseSubF rx fuel ev cs)
      else
        if ev.current_depth = ev.max_depth then
          (ev, Except.error ("Recursion limit reached: " ++ toString ev.max_depth))
        else
          if _hf : fuel = 0 then (ev, Except.error "out of fuel")
          else
            let r := interpretSingleF rx (fuel - 1)
              { ev with current_depth := ev.current_depth + 1 } s.data
            let ev3 := { r.1 with current_depth := r.1.current_depth - 1 }
            match cmdOutcome r.2 with
            | Except.ok str => consResult str (parseSubF rx fuel ev3 cs)
            | Except.error e => (ev3, Except.error e)
termination_by cmds => (fuel, 0, cmds.length)

/-- `Evaluate::interpret_single` as instantiated by the evaluator: parse the
statement, then `evaluate` (src/crates/metac/lib.rs:159-163). -/
def interpretSingleF {A C : Type} (rx : String → List String → Except String (List String))
    (fuel : Nat) (ev : Evaluator A C) (stmt : List Char) :
    Evaluator A C × Except ParseError Feedback :=
  match parse stmt with
  | Except.error e => (ev, Except.error e)
  | Except.ok data =>
      match evaluateF rx fuel ev data with
      | (ev', fb) => (ev', Except.ok fb)
termination_by (fuel, 2, 0)

/-- `Evaluator::evaluate` (src/src/evaluator.rs:203-226): flatten via
`parse_subcommands`, look the argument strings up, run the finalizer on
success, otherwise consult the builtins before surfacing the lookup error. -/
def evaluateF {A C : Type} (rx : String → List String → Except String (List String))
    (fuel : Nat) (ev : Evaluator A C) (cmds : List Data) : Evaluator A C × Feedback :=
  match parseSubF rx fuel ev cmds with
  | (ev', Except.error err) => (ev', Feedback.Err err)
  | (ev', Except.ok content) =>
      match ev'.mapping.lookup content with
      | Except.ok (fin, args) =>
          match fin ev'.context args with
          | (ctx', Except.ok res) => ({ ev' with context := ctx' }, Feedback.Ok res)
          | (ctx', Except.error res) => ({ ev' with context := ctx' }, Feedback.Err res)
      | Except.error e =>
          match handleAnyBuiltinCommands rx ev'.mapping content with
          | some r => (ev', r)
          | none => (ev', lookerrToEvalres e)
termination_by (fuel, 1, 0)
end

/-- `Evaluator::interpret_single` from outside: the fuel
`max_depth + 1 - current_depth` is an upper bound on the recursion the depth
guard allows, so the fueled function never hits its `"out of fuel"` branch. -/
def Evaluator.interpret_single {A C : Type}
    (rx : String → List String → Except String (List String))
    (ev : Evaluator A C) (stmt : String) : Evaluator A C × Except ParseError Feedback :=
  interpretSingleF rx (ev.max_depth + 1 - ev.current_depth) ev stmt.data

/-! ## Theorems for C3 and C10 -/

/-- On a statement made only of `Atom` tokens, `parse_subcommands` returns the
atom strings verbatim and the evaluator state untouched (no recursion, no
depth change, no context change). -/
theorem parseSubF_atoms {A C : Type} (rx : String → List String → Except String (List String))
    (fuel : Nat) (ev : Evaluator A C) :
    ∀ content : List String,
      parseSubF rx fuel ev (content.map Data.Atom) = (ev, Except.ok content) := by
  intro content
  induction content with
  | nil => simp [parseSubF]
  | cons s cs ih => simp [parseSubF, ih, consResult]

/-- Identity stand-in for the abstracted regex facility. -/
def rxId : String → List String → Except String (List String) := fun _ l => Except.ok l

/-- Finalizer used in the C3 fixtures. -/
def finSub : Finalizer Unit Unit := fun c _ => (c, Except.ok "done")

/-- Evaluator whose tree has the user-registered node `"?"` (carrying only the
child `"sub"` with a finalizer — no finalizer at `"?"` itself), as produced by
registering the spec `(&[("?", None), ("sub", None)], finSub)`. -/
def evC3 : Evaluator Unit Unit :=
  ⟨Mapping.node
      [("?", Mapping.node [("sub", Mapping.node [] none (some finSub))] none none)]
      none none,
   (), 0, 100⟩

/-- C3 counterexample: the claim says that when the user has registered a node
for the literal `"?"`, the `?` builtin is never invoked for a statement whose
first token is `"?"`.  In `evC3` the node `"?"` is user-registered, the lookup
of `["?"]` still fails (`FinalizerDoesNotExist`), and evaluation then returns
the builtin `?` listing `"? sub "` — the builtin runs despite the user
registration (shadowing only happens when the lookup *succeeds*). -/
theorem builtin_question_runs_despite_user_node :
    (assocGet evC3.mapping.map "?").isSome = true ∧
    evC3.mapping.lookup ["?"] =
      Except.error (LookError.FinalizerDoesNotExist : LookError String) ∧
    evaluateF rxId 0 evC3 [Data.Atom "?"] = (evC3, Feedback.Ok "? sub ") := by
  have hlook : evC3.mapping.lookup ["?"] =
      Except.error (LookError.FinalizerDoesNotExist : LookError String) := by
    simp [Mapping.lookup, lookupInternal, assocGet, evC3,
      Mapping.map, Mapping.decider, Mapping.finalizer]
  refine ⟨rfl, hlook, ?_⟩
  have hatoms := parseSubF_atoms rxId 0 evC3 ["?"]
  simp only [List.map] at hatoms
  simp only [evaluateF, hatoms, hlook]
  simp only [handleAnyBuiltinCommands]
  norm_num [mappingToList, mappingToListGo, sortStr, sortInsert, evC3,
    Mapping.map, Mapping.decider, Mapping.finalizer]
  rfl

/-- C3 (amended): the builtins are consulted exactly when the matching-tree
lookup of the statement's argument strings fails.  For every all-atom
statement: if the lookup succeeds — in particular when the user registered a
full path with finalizer at `"?"` or `"autocomplete"` — the finalizer's result
is returned and the builtin plays no part; if the lookup fails, the result is
the builtin answer when the first token selects one, and the rendered lookup
error otherwise.  A user-registered node whose lookup still fails does not
suppress the builtin. -/
theorem builtin_shadowing_exact {A C : Type}
    (rx : String → List String → Except String (List String))
    (fuel : Nat) (ev : Evaluator A C) (content : List String) :
    (∀ (fin : Finalizer A C) (args : List A),
      ev.mapping.lookup content = Except.ok (fin, args) →
      evaluateF rx fuel ev (content.map Data.Atom) =
        (match fin ev.context args with
         | (ctx', Except.ok res) => ({ ev with context := ctx' }, Feedback.Ok res)
         | (ctx', Except.error res) => ({ ev with context := ctx' }, Feedback.Err res))) ∧
    (∀ e : LookError String,
      ev.mapping.lookup content = Except.error e →
      evaluateF rx fuel ev (content.map Data.Atom) =
        (ev, (handleAnyBuiltinCommands rx ev.mapping content).getD (lookerrToEvalres e))) := by
  constructor
  · intro fin args h
    simp only [evaluateF, parseSubF_atoms rx fuel ev content, h]
  · intro e h
    simp only [evaluateF, parseSubF_atoms rx fuel ev content, h]
    cases hb : handleAnyBuiltinCommands rx ev.mapping content <;> simp [hb]

/-- Evaluator with a user-registered finalizer directly at `"?"`, as in the
source test `override_builtins`. -/
def evQOverride : Evaluator Unit Unit :=
  ⟨Mapping.node
      [("?", Mapping.node [] none (some (fun c _ => (c, Except.error "? is not available"))))]
      none none,
   (), 0, 100⟩

/-- Witness for C3's amended theorem: on `evQOverride`, lookup of `["?"]`
succeeds, and evaluation returns the user handler's error — the builtin is
shadowed; on `evC3` (lookup fails), the result is the builtin's listing. -/
theorem builtin_shadowing_exact_witness :
    evaluateF rxId 0 evQOverride [Data.Atom "?"] =
      (evQOverride, Feedback.Err "? is not available") ∧
    evaluateF rxId 0 evC3 [Data.Atom "missing"] =
      (evC3, Feedback.Err "Unrecognized mapping: missing") := by
  constructor
  · have h : evQOverride.mapping.lookup ["?"] =
        Except.ok ((fun c _ => (c, Except.error "? is not available") : Finalizer Unit Unit), []) := by
      simp [Mapping.lookup, lookupInternal, assocGet, evQOverride,
        Mapping.map, Mapping.decider, Mapping.finalizer]
    have := (builtin_shadowing_exact rxId 0 evQOverride ["?"]).1 _ [] h
    simp only [List.map] at this
    rw [this]
  · have h : evC3.mapping.lookup ["missing"] =
        Except.error (LookError.UnknownMapping "missing" : LookError String) := by
      simp [Mapping.lookup, lookupInternal, assocGet, evC3,
        Mapping.map, Mapping.decider, Mapping.finalizer]
    have := (builtin_shadowing_exact rxId 0 evC3 ["missing"]).2 _ h
    simp only [List.map] at this
    rw [this]
    rfl

/-- C10: for an all-atom statement whose lookup fails, evaluation leaves the
whole evaluator state — mapping, context, depth — exactly as it was (so no
finalizer ran and the builtin `?`/`autocomplete` paths touched nothing), and
the feedback is the builtin answer when one applies, the rendered lookup
error otherwise. -/
theorem evaluate_lookup_failure_preserves_state {A C : Type}
    (rx : String → List String → Except String (List String))
    (fuel : Nat) (ev : Evaluator A C) (content : List String) (e : LookError String)
    (h : ev.mapping.lookup content = Except.error e) :
    (evaluateF rx fuel ev (content.map Data.Atom)).1 = ev ∧
    (evaluateF rx fuel ev (content.map Data.Atom)).2 =
      (handleAnyBuiltinCommands rx ev.mapping content).getD (lookerrToEvalres e) := by
  simp only [evaluateF, parseSubF_atoms rx fuel ev content, h]
  cases hb : handleAnyBuiltinCommands rx ev.mapping content <;> simp [hb]

/-- Witness for C10: the failing lookup of `["missing"]` on `evC3` leaves the
state exactly `evC3` and yields the rendered `UnknownMapping` error. -/
theorem evaluate_lookup_failure_preserves_state_witness :
    (evaluateF rxId 3 evC3 [Data.Atom "missing"]).1 = evC3 ∧
    (evaluateF rxId 3 evC3 [Data.Atom "missing"]).2 =
      Feedback.Err "Unrecognized mapping: missing" := by
  have h : evC3.mapping.lookup ["missing"] =
      Except.error (LookError.UnknownMapping "missing" : LookError String) := by
    simp [Mapping.lookup, lookupInternal, assocGet, evC3,
      Mapping.map, Mapping.decider, Mapping.finalizer]
  have := evaluate_lookup_failure_preserves_state rxId 3 evC3 ["missing"] _ h
  simp only [List.map] at this
  exact ⟨this.1, by rw [this.2]; rfl⟩

/-! ## Theorems for C5 -/

theorem strMkData (l : List Char) : (String.mk l).data = l := rfl

def nestChars : Nat → List Char
  | 0 => ['x']
  | k+1 => 'c' :: 'a' :: 'l' :: 'l' :: ' ' :: '(' :: (nestChars k ++ [')'])

def depthAfter : List Char → Nat → Option Nat
  | [], d => some d
  | c :: rest, d =>
      if c = '(' then depthAfter rest (d + 1)
      else if c = ')' then
        if d = 0 then none else depthAfter rest (d - 1)
      else depthAfter rest d

theorem depthAfter_append : ∀ (a b : List Char) (d : Nat),
    depthAfter (a ++ b) d = (depthAfter a d).bind (fun e => depthAfter b e) := by
  intro a
  induction a with
  | nil => intro b d; simp [depthAfter]
  | cons c rest ih =>
      intro b d
      by_cases h1 : c = '('
      · simp [depthAfter, h1, ih]
      · by_cases h2 : c = ')'
        · by_cases h3 : d = 0 <;> simp [depthAfter, h1, h2, h3, ih]
        · simp [depthAfter, h1, h2, ih]

theorem depthAfter_shift : ∀ (s : List Char) (d e m : Nat),
    depthAfter s d = some e → depthAfter s (d + m) = some (e + m) := by
  intro s
  induction s with
  | nil =>
      intro d e m h
      simp [depthAfter] at h ⊢
      omega
  | cons c rest ih =>
      intro d e m h
      by_cases h1 : c = '('
      · simp only [depthAfter, if_pos h1] at h ⊢
        rw [show d + m + 1 = d + 1 + m by omega]
        exact ih (d + 1) e m h
      · by_cases h2 : c = ')'
        · simp only [depthAfter, if_neg h1, if_pos h2] at h ⊢
          by_cases h3 : d = 0
          · rw [if_pos h3] at h; cases h
          · rw [if_neg h3] at h
            cases m with
            | zero =>
                rw [if_neg (by omega)]
                simpa using ih (d - 1) e 0 h
            | succ m' =>
                rw [if_neg (by omega)]
                rw [show d + (m' + 1) - 1 = (d - 1) + (m' + 1) by omega]
                exact ih (d - 1) e (m' + 1) h
        · simp only [depthAfter, if_neg h1, if_neg h2] at h ⊢
          exact ih d e m h

theorem parseGo_inside : ∀ (s : List Char) (d e : Nat) (acc : List Char)
    (out : List Data) (rest : List Char),
    depthAfter s d = some e →
    parseGo (s ++ rest) (d + 1) acc out = parseGo rest (e + 1) (acc ++ s) out := by
  intro s
  induction s with
  | nil =>
      intro d e acc out rest h
      simp [depthAfter] at h
      subst h
      simp
  | cons c s' ih =>
      intro d e acc out rest h
      by_cases h1 : c = '('
      · subst h1
        simp only [depthAfter, if_pos rfl] at h
        rw [List.cons_append]
        rw [show parseGo ('(' :: (s' ++ rest)) (d + 1) acc out
            = parseGo (s' ++ rest) (d + 2) (acc ++ ['(']) out from rfl]
        rw [show d + 2 = (d + 1) + 1 from rfl]
        rw [ih (d + 1) e (acc ++ ['(']) out rest h]
        simp
      · by_cases h2 : c = ')'
        · subst h2
          simp only [depthAfter, if_neg h1, if_pos rfl] at h
          by_cases h3 : d = 0
          · rw [if_pos h3] at h; cases h
          · rw [if_neg h3] at h
            obtain ⟨d', rfl⟩ : ∃ d', d = d' + 1 := ⟨d - 1, by omega⟩
            rw [List.cons_append]
            rw [show parseGo (')' :: (s' ++ rest)) (d' + 1 + 1) acc out
                = parseGo (s' ++ rest) (d' + 1) (acc ++ [')']) out from rfl]
            simp only [Nat.add_sub_cancel] at h
            rw [ih d' e (acc ++ [')']) out rest h]
            simp
        · rw [List.cons_append]
          have hstep : parseGo (c :: (s' ++ rest)) (d + 1) acc out
              = parseGo (s' ++ rest) (d + 1) (acc ++ [c]) out := by
            simp only [parseGo]
            rw [if_neg h1, if_neg h2]
          rw [hstep]
          simp only [depthAfter, if_neg h1, if_neg h2] at h
          rw [ih d e (acc ++ [c]) out rest h]
          simp

theorem nestChars_balanced : ∀ k, depthAfter (nestChars k) 0 = some 0 := by
  intro k
  induction k with
  | zero => rfl
  | succ k ih =>
      show depthAfter ('c' :: 'a' :: 'l' :: 'l' :: ' ' :: '(' :: (nestChars k ++ [')'])) 0 = some 0
      rw [show depthAfter ('c' :: 'a' :: 'l' :: 'l' :: ' ' :: '(' :: (nestChars k ++ [')'])) 0
          = depthAfter (nestChars k ++ [')']) 1 from rfl]
      rw [depthAfter_append]
      rw [show (1 : Nat) = 0 + 1 from rfl, depthAfter_shift (nestChars k) 0 0 1 ih]
      rfl

theorem parse_nest (k : Nat) :
    parse (nestChars (k + 1)) =
      Except.ok [Data.Atom "call", Data.Command (String.mk (nestChars k))] := by
  show parseGo (nestChars (k + 1)) 0 [] [] = _
  rw [show nestChars (k + 1) = 'c' :: 'a' :: 'l' :: 'l' :: ' ' :: '(' :: (nestChars k ++ [')'])
      from rfl]
  rw [show parseGo ('c' :: 'a' :: 'l' :: 'l' :: ' ' :: '(' :: (nestChars k ++ [')'])) 0 [] []
      = parseGo (nestChars k ++ [')']) 1 [] [Data.Atom "call"] from rfl]
  rw [show (1 : Nat) = 0 + 1 from rfl,
      parseGo_inside (nestChars k) 0 0 [] [Data.Atom "call"] [')'] (nestChars_balanced k)]
  rfl

theorem nest_limit {A C : Type} (rx : String → List String → Except String (List String)) :
    ∀ (k fuel : Nat) (ev : Evaluator A C),
      ev.current_depth + (k + 1) = ev.max_depth + 1 → k + 1 ≤ fuel →
      interpretSingleF rx fuel ev (nestChars (k + 1)) =
        (ev, Except.ok (Feedback.Err ("Recursion limit reached: " ++ toString ev.max_depth))) := by
  intro k
  induction k with
  | zero =>
      intro fuel ev hdep hfuel
      have hd : ev.current_depth = ev.max_depth := by omega
      have hsub : parseSubF rx fuel ev [Data.Atom "call", Data.Command (String.mk (nestChars 0))] =
          (ev, Except.error ("Recursion limit reached: " ++ toString ev.max_depth)) := by
        simp only [parseSubF, strMkData]
        rw [if_neg (by decide), if_pos hd]
        simp [consResult]
      rw [interpretSingleF.eq_def, parse_nest 0]
      simp only [evaluateF, hsub]
  | succ k ih =>
      intro fuel ev hdep hfuel
      obtain ⟨fuel', rfl⟩ : ∃ f', fuel = f' + 1 := ⟨fuel - 1, by omega⟩
      obtain ⟨mp, ctx, d, md⟩ := ev
      have hdep' : d + (k + 1 + 1) = md + 1 := hdep
      have hd : ¬ d = md := by omega
      have hinner := ih fuel'
        ⟨mp, ctx, d + 1, md⟩ (show d + 1 + (k + 1) = md + 1 by omega) (by omega)
      have hsub : parseSubF rx (fuel' + 1) (⟨mp, ctx, d, md⟩ : Evaluator A C)
            [Data.Atom "call", Data.Command (String.mk (nestChars (k + 1)))] =
          (⟨mp, ctx, d, md⟩, Except.error ("Recursion limit reached: " ++ toString md)) := by
        simp only [parseSubF, strMkData]
        rw [if_neg (by simp [nestChars])]
        rw [if_neg hd]
        rw [dif_neg (by omega)]
        simp only [Nat.add_sub_cancel]
        rw [hinner]
        simp [cmdOutcome, consResult]
      rw [interpretSingleF.eq_def, parse_nest (k + 1)]
      simp only [evaluateF, hsub]

theorem consResult_fst {A C : Type} (s : String)
    (p : Evaluator A C × Except String (List String)) : (consResult s p).1 = p.1 := by
  obtain ⟨e, r⟩ := p
  cases r <;> rfl

theorem parseSubF_depth {A C : Type} (rx : String → List String → Except String (List String))
    (fuel : Nat)
    (hIS : fuel ≠ 0 → ∀ (ev : Evaluator A C) (stmt : List Char),
      ((interpretSingleF rx (fuel - 1) ev stmt).1).current_depth = ev.current_depth) :
    ∀ (cmds : List Data) (ev : Evaluator A C),
      ((parseSubF rx fuel ev cmds).1).current_depth = ev.current_depth := by
  intro cmds
  induction cmds with
  | nil => intro ev; simp [parseSubF]
  | cons cmd cs ih =>
      intro ev
      cases cmd with
      | Atom s => simp [parseSubF, consResult_fst, ih]
      | Command s =>
          simp only [parseSubF]
          by_cases h1 : s.data.head? = some '#'
          · rw [if_pos h1]
            simp [consResult_fst, ih]
          · rw [if_neg h1]
            by_cases h2 : ev.current_depth = ev.max_depth
            · rw [if_pos h2]
            · rw [if_neg h2]
              by_cases h3 : fuel = 0
              · rw [dif_pos h3]
              · rw [dif_neg h3]
                have hr := hIS h3 { ev with current_depth := ev.current_depth + 1 } s.data
                cases hco : cmdOutcome
                    (interpretSingleF rx (fuel - 1)
                      { ev with current_depth := ev.current_depth + 1 } s.data).2 with
                | ok str =>
                    simp only [hco, consResult_fst]
                    simp [ih, hr]
                | error e =>
                    simp only [hco]
                    simp [hr]

theorem evaluateF_depth {A C : Type} (rx : String → List String → Except String (List String))
    (fuel : Nat)
    (hPS : ∀ (cmds : List Data) (ev : Evaluator A C),
      ((parseSubF rx fuel ev cmds).1).current_depth = ev.current_depth) :
    ∀ (ev : Evaluator A C) (cmds : List Data),
      ((evaluateF rx fuel ev cmds).1).current_depth = ev.current_depth := by
  intro ev cmds
  have h := hPS cmds ev
  simp only [evaluateF]
  cases hps : parseSubF rx fuel ev cmds with
  | mk ev' r =>
      rw [hps] at h
      cases r with
      | error e =>
          simp only [hps]
          simpa using h
      | ok content =>
          simp only [hps]
          cases hl : ev'.mapping.lookup content with
          | ok fa =>
              obtain ⟨fin, args⟩ := fa
              simp only [hl]
              split <;> simpa using h
          | error e =>
              simp only [hl]
              cases hb : handleAnyBuiltinCommands rx ev'.mapping content <;>
                simp only [hb] <;> simpa using h

theorem interpretSingleF_depth {A C : Type}
    (rx : String → List String → Except String (List String)) (fuel : Nat)
    (hE : ∀ (ev : Evaluator A C) (cmds : List Data),
      ((evaluateF rx fuel ev cmds).1).current_depth = ev.current_depth) :
    ∀ (ev : Evaluator A C) (stmt : List Char),
      ((interpretSingleF rx fuel ev stmt).1).current_depth = ev.current_depth := by
  intro ev stmt
  cases hp : parse stmt with
  | error e => simp [interpretSingleF, hp]
  | ok data =>
      have h := hE ev data
      cases he : evaluateF rx fuel ev data with
      | mk ev' fb =>
          rw [he] at h
          simp only [interpretSingleF, hp, he]
          simpa using h

theorem interpretSingleF_depth_all {A C : Type}
    (rx : String → List String → Except String (List String)) :
    ∀ (fuel : Nat) (ev : Evaluator A C) (stmt : List Char),
      ((interpretSingleF rx fuel ev stmt).1).current_depth = ev.current_depth := by
  intro fuel
  induction fuel with
  | zero =>
      exact interpretSingleF_depth rx 0
        (evaluateF_depth rx 0 (parseSubF_depth rx 0 (fun h => absurd rfl h)))
  | succ f ih =>
      exact interpretSingleF_depth rx (f + 1)
        (evaluateF_depth rx (f + 1)
          (parseSubF_depth rx (f + 1) (fun _ => by simpa using ih)))

/-- Evaluator over the empty tree with recursion limit `0`, context `()`. -/
def evW5 : Evaluator Unit Unit := ⟨Mapping.node [] none none, (), 0, 0⟩

/-- C5: with the recursion limit set to `N`, evaluating the statement whose
parenthesized sub-commands are nested `N + 1` levels deep
(`call (call (... (x) ...))`) fails with the recursion-limit error and
returns the evaluator state — depth counter included — exactly as it was
(`0` at top level); and for every statement evaluation whatsoever, at any
fuel, the depth counter of the resulting state equals its pre-call value
(restored on every exit path, success or failure). -/
theorem recursion_limit_and_depth_restore {A C : Type}
    (rx : String → List String → Except String (List String)) (N : Nat)
    (ev : Evaluator A C) (h0 : ev.current_depth = 0) (hN : ev.max_depth = N) :
    Evaluator.interpret_single rx ev (String.mk (nestChars (N + 1))) =
      (ev, Except.ok (Feedback.Err ("Recursion limit reached: " ++ toString N))) ∧
    (∀ (fuel : Nat) (ev' : Evaluator A C) (stmt : List Char),
      ((interpretSingleF rx fuel ev' stmt).1).current_depth = ev'.current_depth) ∧
    (∀ (ev' : Evaluator A C) (stmt : String),
      ((Evaluator.interpret_single rx ev' stmt).1).current_depth = ev'.current_depth) := by
  refine ⟨?_, fun fuel ev' stmt => interpretSingleF_depth_all rx fuel ev' stmt,
    fun ev' stmt => interpretSingleF_depth_all rx _ ev' stmt.data⟩
  unfold Evaluator.interpret_single
  rw [strMkData]
  rw [nest_limit rx N (ev.max_depth + 1 - ev.current_depth) ev (by omega) (by omega)]
  rw [hN]

/-- Witness for C5 at `N = 0`: on the empty-tree evaluator with limit `0`,
the singly-nested statement `call (x)` already reports the recursion limit
and leaves the state (hence the depth counter `0`) untouched. -/
theorem recursion_limit_and_depth_restore_witness :
    Evaluator.interpret_single rxId evW5 (String.mk (nestChars 1)) =
      (evW5, Except.ok (Feedback.Err ("Recursion limit reached: " ++ toString (0 : Nat)))) :=
  (recursion_limit_and_depth_restore rxId 0 evW5 rfl rfl).1
